import Mathlib

/-!
Verification of the core logic of the Deloitte Travel Tracker web application.

The development is a shallow embedding of the application code:
JavaScript numbers are modelled as rationals, JavaScript strings as Lean
strings (sequences of characters), fallible asynchronous operations as
`Except` values, and the settled results of concurrent calls as lists of
outcomes.  Each definition is translated from the corresponding source
function; the file and symbol are named in its doc comment.

The repository contains two revisions of the dashboard component.  The
aggregation, navigation and upload embeddings below follow the revision
with a configurable monthly allowance (the warning threshold there is
0.8 times the allowance; the older revision hardcodes allowance 6500 and
threshold 5000).
-/

/-- Budget status of a month, from the `status` field of `MonthlyStat`
in `src/types.ts`. -/
inductive BudgetStatus where
  | safe
  | warning
  | overBudget
deriving DecidableEq, Repr

/-- A parsed receipt record, from the `ReceiptData` interface in
`src/types.ts`.  Amounts are modelled as rationals. -/
structure ReceiptData where
  id : String
  date : String
  time : String
  amount : ℚ
  currency : String
  pickupLocation : String
  dropoffLocation : String
  tripType : String
deriving DecidableEq, Repr

/-- Derived per-month aggregate, from the `MonthlyStat` interface in
`src/types.ts`. -/
structure MonthlyStat where
  month : String
  totalSpent : ℚ
  tripCount : ℕ
  status : BudgetStatus
  remainingBudget : ℚ
deriving DecidableEq, Repr

/-- The year-month grouping key of a receipt: `inv.date.substring(0, 7)`
in the `monthlyStats` aggregation of the dashboard component. -/
def monthKeyOf (inv : ReceiptData) : String :=
  inv.date.take 7

/-- The group created when a month key is first seen, from the
`monthlyStats` aggregation: zero totals, status Safe, remaining budget
equal to the full allowance. -/
def initStat (k : String) (allowance : ℚ) : MonthlyStat :=
  { month := k
    totalSpent := 0
    tripCount := 0
    status := .safe
    remainingBudget := allowance }

/-- One iteration of the `invoices.forEach` body in `monthlyStats`:
add the amount, bump the trip count, recompute the remaining budget as
`max(0, allowance - totalSpent)`, then update the status
(OverBudget when over the allowance, Warning when at or above 0.8 times
the allowance, otherwise the status is left unchanged). -/
def bumpStat (allowance : ℚ) (s : MonthlyStat) (amt : ℚ) : MonthlyStat :=
  let total := s.totalSpent + amt
  { s with
    totalSpent := total
    tripCount := s.tripCount + 1
    remainingBudget := max 0 (allowance - total)
    status :=
      if total > allowance then .overBudget
      else if total ≥ allowance * (4 / 5) then .warning
      else s.status }

/-- Processing of one invoice against the insertion-ordered group map of
`monthlyStats` (a JavaScript object keyed by month; keys keep first
insertion order, modelled as an association list). -/
def insertReceipt (allowance : ℚ) (groups : List (String × MonthlyStat))
    (inv : ReceiptData) : List (String × MonthlyStat) :=
  let k := monthKeyOf inv
  if groups.any (fun p => p.1 = k) then
    groups.map (fun p => if p.1 = k then (p.1, bumpStat allowance p.2 inv.amount) else p)
  else
    groups ++ [(k, bumpStat allowance (initStat k allowance) inv.amount)]

/-- The group map built by the `invoices.forEach` loop of `monthlyStats`. -/
def monthGroups (invoices : List ReceiptData) (allowance : ℚ) :
    List (String × MonthlyStat) :=
  invoices.foldl (insertReceipt allowance) []

/-- The `monthlyStats` aggregation of the dashboard component:
group the invoices by month key and sort the groups descending by month
(`Object.values(groups).sort((a, b) => b.month.localeCompare(a.month))`;
for these zero-padded ASCII keys the locale comparison agrees with
lexicographic character order). -/
def monthlyStats (invoices : List ReceiptData) (monthlyAllowance : ℚ) :
    List MonthlyStat :=
  ((monthGroups invoices monthlyAllowance).map Prod.snd).mergeSort
    (fun a b => decide (b.month ≤ a.month))

/-- A sample receipt used in concrete checks. -/
def sampleReceipt (d : String) (amt : ℚ) : ReceiptData :=
  { id := "sample"
    date := d
    time := "09:00"
    amount := amt
    currency := "INR"
    pickupLocation := "Home"
    dropoffLocation := "Office"
    tripType := "Commute" }

/-! ### Characterisation of the aggregation

The group map is an association list with pairwise distinct keys; the
entry at key k is obtained by folding the bump step over exactly the
invoices whose month key is k, in input order. -/

/-- Lookup in the group map (the first entry whose key matches). -/
def findStat (k : String) (g : List (String × MonthlyStat)) : Option MonthlyStat :=
  (g.find? (fun p => p.1 = k)).map Prod.snd

/-- The pure status classification applied by the bump step to a total. -/
def classifyStatus (allowance total : ℚ) : BudgetStatus :=
  if total > allowance then .overBudget
  else if total ≥ allowance * (4 / 5) then .warning
  else .safe

/-- Sum of the amounts of a list of receipts. -/
def totalAmount (rs : List ReceiptData) : ℚ :=
  (rs.map ReceiptData.amount).sum

/-- The stat obtained by folding the bump step over the receipts of one
month, starting from the freshly initialised group. -/
def monthFold (k : String) (allowance : ℚ) (rs : List ReceiptData) : MonthlyStat :=
  rs.foldl (fun s r => bumpStat allowance s r.amount) (initStat k allowance)

theorem findStat_nil (k : String) : findStat k [] = none := rfl

theorem findStat_cons (k : String) (q : String × MonthlyStat)
    (g : List (String × MonthlyStat)) :
    findStat k (q :: g) = if q.1 = k then some q.2 else findStat k g := by
  unfold findStat
  by_cases h : q.1 = k
  · rw [List.find?_cons_of_pos _ (by simpa using h), if_pos h]
    rfl
  · rw [List.find?_cons_of_neg _ (by simpa using h), if_neg h]

theorem findStat_map_replace (A : ℚ) (amt : ℚ) (k0 k : String)
    (g : List (String × MonthlyStat)) :
    findStat k (g.map (fun p => if p.1 = k0 then (p.1, bumpStat A p.2 amt) else p)) =
      if k0 = k then (findStat k g).map (fun s => bumpStat A s amt) else findStat k g := by
  induction g with
  | nil => by_cases h : k0 = k <;> simp [findStat_nil, h]
  | cons p g ih =>
    rw [List.map_cons, findStat_cons, findStat_cons]
    have hfst : (if p.1 = k0 then (p.1, bumpStat A p.2 amt) else p).1 = p.1 := by
      by_cases h : p.1 = k0 <;> simp [h]
    rw [hfst]
    by_cases hpk : p.1 = k
    · rw [if_pos hpk, if_pos hpk]
      by_cases hk : k0 = k
      · have : p.1 = k0 := hpk.trans hk.symm
        simp [this, hk]
      · have : ¬ p.1 = k0 := fun hc => hk (hc.symm.trans hpk)
        simp [this, hk]
    · rw [if_neg hpk, if_neg hpk, ih]

theorem findStat_append_single (k0 k : String) (v : MonthlyStat)
    (g : List (String × MonthlyStat)) :
    findStat k (g ++ [(k0, v)]) =
      ((findStat k g).orElse (fun _ => if k0 = k then some v else none)) := by
  induction g with
  | nil => by_cases h : k0 = k <;> simp [findStat_nil, findStat_cons, h]
  | cons p g ih =>
    rw [List.cons_append, findStat_cons, findStat_cons]
    by_cases hpk : p.1 = k
    · rw [if_pos hpk, if_pos hpk]
      rfl
    · rw [if_neg hpk, if_neg hpk, ih]

theorem findStat_isSome_of_any (k : String) (g : List (String × MonthlyStat))
    (h : g.any (fun p => p.1 = k) = true) : (findStat k g).isSome := by
  rcases List.any_eq_true.mp h with ⟨p, hp, hpk⟩
  have : (g.find? (fun p => p.1 = k)).isSome := List.find?_isSome.mpr ⟨p, hp, hpk⟩
  simpa [findStat] using this

theorem findStat_eq_none_of_not_any (k : String) (g : List (String × MonthlyStat))
    (h : g.any (fun p => p.1 = k) = false) : findStat k g = none := by
  have : g.find? (fun p => p.1 = k) = none := by
    apply List.find?_eq_none.mpr
    intro p hp
    intro hpk
    exact (List.any_eq_false.mp h p hp) hpk
  simp [findStat, this]

/-- The generic association-list update performed by `insertReceipt`,
with the month key as an explicit parameter (proof infrastructure;
`insertReceipt` instantiates it at the key of the receipt). -/
def upsertStat (A : ℚ) (k0 : String) (amt : ℚ)
    (g : List (String × MonthlyStat)) : List (String × MonthlyStat) :=
  if g.any (fun p => p.1 = k0) then
    g.map (fun p => if p.1 = k0 then (p.1, bumpStat A p.2 amt) else p)
  else
    g ++ [(k0, bumpStat A (initStat k0 A) amt)]

theorem insertReceipt_eq_upsert (A : ℚ) (g : List (String × MonthlyStat))
    (r : ReceiptData) :
    insertReceipt A g r = upsertStat A (monthKeyOf r) r.amount g := rfl

theorem findStat_upsert (A amt : ℚ) (k0 k : String)
    (g : List (String × MonthlyStat)) :
    findStat k (upsertStat A k0 amt g) =
      if k0 = k then
        some (bumpStat A ((findStat k g).getD (initStat k0 A)) amt)
      else findStat k g := by
  by_cases hany : g.any (fun p => p.1 = k0) = true
  · rw [upsertStat, if_pos hany, findStat_map_replace]
    by_cases hk : k0 = k
    · rcases Option.isSome_iff_exists.mp
        (findStat_isSome_of_any k g (by rwa [hk] at hany)) with ⟨s, hs⟩
      simp [hk, hs]
    · simp [hk]
  · rw [upsertStat, if_neg hany, findStat_append_single]
    have hnone := findStat_eq_none_of_not_any k0 g
      (by revert hany; cases g.any (fun p => p.1 = k0) <;> simp)
    by_cases hk : k0 = k
    · rw [← hk]
      simp [hnone]
    · simp [hk]

theorem findStat_foldl (A : ℚ) (k : String) :
    ∀ (l : List ReceiptData) (g : List (String × MonthlyStat)),
      findStat k (l.foldl (insertReceipt A) g) =
        (l.filter (fun r => monthKeyOf r = k)).foldl
          (fun o r => some (bumpStat A (o.getD (initStat k A)) r.amount))
          (findStat k g) := by
  intro l
  induction l with
  | nil => intro g; rfl
  | cons r l ih =>
    intro g
    rw [List.foldl_cons, ih, insertReceipt_eq_upsert, findStat_upsert]
    by_cases hk : monthKeyOf r = k
    · rw [List.filter_cons_of_pos (by simpa using hk), List.foldl_cons, if_pos hk, hk]
    · rw [List.filter_cons_of_neg (by simpa using hk), if_neg hk]

theorem optFold_some (A : ℚ) (k : String) :
    ∀ (rs : List ReceiptData) (s0 : MonthlyStat),
      rs.foldl (fun o r => some (bumpStat A (o.getD (initStat k A)) r.amount)) (some s0) =
        some (rs.foldl (fun s r => bumpStat A s r.amount) s0) := by
  intro rs
  induction rs with
  | nil => intro s0; rfl
  | cons r rs ih =>
    intro s0
    rw [List.foldl_cons, List.foldl_cons]
    simp only [Option.getD_some]
    exact ih _

theorem findStat_monthGroups (A : ℚ) (k : String) (l : List ReceiptData) :
    findStat k (monthGroups l A) =
      match l.filter (fun r => monthKeyOf r = k) with
      | [] => none
      | r :: rs => some (monthFold k A (r :: rs)) := by
  have h := findStat_foldl A k l []
  rw [monthGroups, h]
  rcases hf : l.filter (fun r => monthKeyOf r = k) with _ | ⟨r, rs⟩
  · rfl
  · rw [findStat_nil, List.foldl_cons, optFold_some]
    rfl

theorem keys_upsert (A : ℚ) (k0 : String) (amt : ℚ)
    (g : List (String × MonthlyStat)) :
    (upsertStat A k0 amt g).map Prod.fst =
      if g.any (fun p => p.1 = k0) then g.map Prod.fst
      else g.map Prod.fst ++ [k0] := by
  by_cases hany : g.any (fun p => p.1 = k0) = true
  · rw [upsertStat, if_pos hany, if_pos hany, List.map_map]
    apply List.map_congr_left
    intro p _
    by_cases h : p.1 = k0 <;> simp [h]
  · rw [upsertStat, if_neg hany, if_neg hany, List.map_append]
    rfl

theorem not_mem_keys_of_not_any (k0 : String) (g : List (String × MonthlyStat))
    (h : ¬ g.any (fun p => p.1 = k0) = true) : k0 ∉ g.map Prod.fst := by
  intro hmem
  rcases List.mem_map.mp hmem with ⟨p, hp, hpk⟩
  exact h (List.any_eq_true.mpr ⟨p, hp, by simpa using hpk⟩)

theorem keysNodup_foldl (A : ℚ) :
    ∀ (l : List ReceiptData) (g : List (String × MonthlyStat)),
      (g.map Prod.fst).Nodup → ((l.foldl (insertReceipt A) g).map Prod.fst).Nodup := by
  intro l
  induction l with
  | nil => intro g hg; exact hg
  | cons r l ih =>
    intro g hg
    rw [List.foldl_cons]
    apply ih
    rw [insertReceipt_eq_upsert, keys_upsert]
    by_cases hany : g.any (fun p => p.1 = monthKeyOf r) = true
    · rwa [if_pos hany]
    · rw [if_neg hany]
      have hnm := not_mem_keys_of_not_any (monthKeyOf r) g hany
      simp only [List.nodup_append, List.nodup_cons, List.nodup_nil]
      exact ⟨hg, by simp, by simpa [List.disjoint_singleton] using hnm⟩

theorem keysNodup_monthGroups (A : ℚ) (l : List ReceiptData) :
    ((monthGroups l A).map Prod.fst).Nodup :=
  keysNodup_foldl A l [] (by simp)

theorem findStat_of_mem_nodup (g : List (String × MonthlyStat))
    (hg : (g.map Prod.fst).Nodup) (p : String × MonthlyStat) (hp : p ∈ g) :
    findStat p.1 g = some p.2 := by
  induction g with
  | nil => cases hp
  | cons q g ih =>
    rw [findStat_cons]
    rcases List.mem_cons.mp hp with h | h
    · rw [h, if_pos rfl]
    · have hq : q.1 ≠ p.1 := by
        intro hc
        have : p.1 ∈ g.map Prod.fst := List.mem_map.mpr ⟨p, h, rfl⟩
        rw [← hc] at this
        exact (List.nodup_cons.mp (by simpa using hg)).1 this
      rw [if_neg hq]
      exact ih (List.nodup_cons.mp (by simpa using hg)).2 h

theorem bumpStat_month (A : ℚ) (s : MonthlyStat) (amt : ℚ) :
    (bumpStat A s amt).month = s.month := rfl

theorem bumpStat_totalSpent (A : ℚ) (s : MonthlyStat) (amt : ℚ) :
    (bumpStat A s amt).totalSpent = s.totalSpent + amt := rfl

theorem bumpStat_tripCount (A : ℚ) (s : MonthlyStat) (amt : ℚ) :
    (bumpStat A s amt).tripCount = s.tripCount + 1 := rfl

theorem bumpStat_remainingBudget (A : ℚ) (s : MonthlyStat) (amt : ℚ) :
    (bumpStat A s amt).remainingBudget = max 0 (A - (s.totalSpent + amt)) := rfl

theorem bumpStat_status (A : ℚ) (s : MonthlyStat) (amt : ℚ) :
    (bumpStat A s amt).status =
      if s.totalSpent + amt > A then .overBudget
      else if s.totalSpent + amt ≥ A * (4 / 5) then .warning
      else s.status := rfl

theorem monthFold_append_single (k : String) (A : ℚ) (rs : List ReceiptData)
    (r : ReceiptData) :
    monthFold k A (rs ++ [r]) = bumpStat A (monthFold k A rs) r.amount := by
  rw [monthFold, monthFold, List.foldl_append, List.foldl_cons, List.foldl_nil]

theorem monthFold_month (k : String) (A : ℚ) (rs : List ReceiptData) :
    (monthFold k A rs).month = k := by
  induction rs using List.reverseRecOn with
  | nil => rfl
  | append_singleton rs r ih => rw [monthFold_append_single, bumpStat_month, ih]

theorem monthFold_remaining (k : String) (A : ℚ) (rs : List ReceiptData)
    (h : rs ≠ []) :
    (monthFold k A rs).remainingBudget = max 0 (A - (monthFold k A rs).totalSpent) := by
  induction rs using List.reverseRecOn with
  | nil => exact absurd rfl h
  | append_singleton rs r _ =>
    rw [monthFold_append_single, bumpStat_remainingBudget, bumpStat_totalSpent]

theorem bumpStat_mk (A : ℚ) (mo : String) (T : ℚ) (n : ℕ) (st : BudgetStatus)
    (rb : ℚ) (amt : ℚ) :
    bumpStat A ⟨mo, T, n, st, rb⟩ amt =
      ⟨mo, T + amt, n + 1,
       if T + amt > A then .overBudget
       else if T + amt ≥ A * (4 / 5) then .warning
       else st,
       max 0 (A - (T + amt))⟩ := rfl

theorem monthFold_spec (k : String) (A : ℚ) :
    ∀ (rs : List ReceiptData), (∀ r ∈ rs, 0 ≤ r.amount) → rs ≠ [] →
      monthFold k A rs =
        { month := k
          totalSpent := totalAmount rs
          tripCount := rs.length
          status := classifyStatus A (totalAmount rs)
          remainingBudget := max 0 (A - totalAmount rs) } := by
  intro rs
  induction rs using List.reverseRecOn with
  | nil => intro _ h; exact absurd rfl h
  | append_singleton rs r ih =>
    intro hnn _
    have hT : totalAmount (rs ++ [r]) = totalAmount rs + r.amount := by
      simp [totalAmount]
    have hlen : (rs ++ [r]).length = rs.length + 1 := by simp
    rcases List.eq_nil_or_concat rs with hrs | hcat
    · subst hrs
      have hstep : monthFold k A ([] ++ [r]) = bumpStat A (initStat k A) r.amount := by
        rw [monthFold_append_single]
        rfl
      have hT1 : totalAmount ([] ++ [r]) = r.amount := by simp [totalAmount]
      have hl1 : ([] ++ [r] : List ReceiptData).length = 0 + 1 := by simp
      rw [hstep, initStat, bumpStat_mk, hT1, hl1]
      simp only [zero_add]
      congr 1
    · have hrsne : rs ≠ [] := by
        rcases hcat with ⟨L, b, rfl⟩
        simp
      have hnn2 : ∀ x ∈ rs, 0 ≤ x.amount := fun x hx =>
        hnn x (List.mem_append.mpr (Or.inl hx))
      have hr : 0 ≤ r.amount := hnn r (List.mem_append.mpr (Or.inr (by simp)))
      have ihe := ih hnn2 hrsne
      rw [monthFold_append_single, ihe, bumpStat_mk, hT, hlen]
      congr 1
      conv_rhs => rw [classifyStatus]
      split_ifs with h1 h2
      · rfl
      · rfl
      · rw [classifyStatus]
        have hx1 : ¬ totalAmount rs > A := by push_neg at h1 ⊢; linarith
        have hx2 : ¬ totalAmount rs ≥ A * (4 / 5) := by push_neg at h2 ⊢; linarith
        rw [if_neg hx1, if_neg hx2]

theorem mem_monthGroups_char (A : ℚ) (l : List ReceiptData)
    (p : String × MonthlyStat) (hp : p ∈ monthGroups l A) :
    l.filter (fun r => monthKeyOf r = p.1) ≠ [] ∧
      p.2 = monthFold p.1 A (l.filter (fun r => monthKeyOf r = p.1)) := by
  have hf := findStat_of_mem_nodup (monthGroups l A) (keysNodup_monthGroups A l) p hp
  rw [findStat_monthGroups] at hf
  rcases hfil : l.filter (fun r => monthKeyOf r = p.1) with _ | ⟨r, rs⟩
  · rw [hfil] at hf
    cases hf
  · rw [hfil] at hf
    refine ⟨by simp, ?_⟩
    exact (Option.some.inj hf).symm

theorem mem_monthlyStats_char (A : ℚ) (l : List ReceiptData) (s : MonthlyStat)
    (hs : s ∈ monthlyStats l A) :
    ∃ k, l.filter (fun r => monthKeyOf r = k) ≠ [] ∧
      s = monthFold k A (l.filter (fun r => monthKeyOf r = k)) := by
  have hmem : s ∈ (monthGroups l A).map Prod.snd :=
    ((List.mergeSort_perm _ _).mem_iff).mp hs
  rcases List.mem_map.mp hmem with ⟨p, hp, hps⟩
  rcases mem_monthGroups_char A l p hp with ⟨h1, h2⟩
  exact ⟨p.1, h1, hps ▸ h2⟩

/-- Claim C5: every MonthlyStat produced by the aggregation satisfies
remainingBudget = max(0, allowance - totalSpent), for every receipt list
and every allowance, including a zero or negative allowance; in
particular the remaining budget is never negative. -/
theorem monthlyStats_remainingBudget (l : List ReceiptData) (A : ℚ)
    (s : MonthlyStat) (hs : s ∈ monthlyStats l A) :
    s.remainingBudget = max 0 (A - s.totalSpent) := by
  rcases mem_monthlyStats_char A l s hs with ⟨k, hne, rfl⟩
  exact monthFold_remaining k A _ hne

unseal Nat.gcd Rat.add Rat.mul Rat.inv Rat.sub List.merge List.mergeSort in
/-- Witness for claim C5: allowance 6500 with totalSpent 9000 gives
remainingBudget max(0, 6500 - 9000) = 0. -/
theorem monthlyStats_remainingBudget_witness :
    ({ month := "2024-03", totalSpent := 9000, tripCount := 1,
       status := .overBudget, remainingBudget := 0 } : MonthlyStat).remainingBudget =
      max 0 ((6500 : ℚ) -
        ({ month := "2024-03", totalSpent := 9000, tripCount := 1,
           status := .overBudget, remainingBudget := 0 } : MonthlyStat).totalSpent) :=
  monthlyStats_remainingBudget [sampleReceipt "2024-03-05" 9000] 6500 _ (by decide)

/-- Claim C1 (amended): for every receipt list (amounts are non-negative
by the data model) and every allowance, each MonthlyStat produced by the
monthly aggregation has status OverBudget exactly when its totalSpent
exceeds the allowance, Warning exactly when totalSpent does not exceed
the allowance but is at least 0.8 times the allowance, and Safe
otherwise.  With allowance 6500: totalSpent 5199 gives Safe, 5200 gives
Warning, 6500 gives Warning (not Safe as originally claimed, since 6500
is at least 0.8 times the allowance without exceeding it), and 6501
gives OverBudget. -/
theorem monthlyStats_status_iff (l : List ReceiptData) (A : ℚ)
    (hnn : ∀ r ∈ l, 0 ≤ r.amount) (s : MonthlyStat) (hs : s ∈ monthlyStats l A) :
    (s.status = .overBudget ↔ s.totalSpent > A) ∧
    (s.status = .warning ↔ (¬ s.totalSpent > A ∧ s.totalSpent ≥ A * (4 / 5))) ∧
    (s.status = .safe ↔ (¬ s.totalSpent > A ∧ ¬ s.totalSpent ≥ A * (4 / 5))) := by
  rcases mem_monthlyStats_char A l s hs with ⟨k, hne, rfl⟩
  have hnn2 : ∀ r ∈ l.filter (fun r => monthKeyOf r = k), 0 ≤ r.amount :=
    fun r hr => hnn r (List.mem_of_mem_filter hr)
  rw [monthFold_spec k A _ hnn2 hne]
  simp only
  rw [classifyStatus]
  split_ifs with h1 h2
  · refine ⟨by simp [h1], ?_, ?_⟩ <;> simp [h1]
  · refine ⟨?_, by simp [h1, h2], ?_⟩ <;> simp [h1, h2]
  · refine ⟨?_, ?_, by simp [h1, h2]⟩ <;> simp [h1, h2]

unseal Nat.gcd Rat.add Rat.mul Rat.inv Rat.sub List.merge List.mergeSort in
/-- Witness for claim C1: the amended status rule instantiated at a
single-receipt list with amount 6501 and allowance 6500 (the stat is
OverBudget). -/
theorem monthlyStats_status_iff_witness :
    (({ month := "2024-03", totalSpent := 6501, tripCount := 1,
        status := .overBudget, remainingBudget := 0 } : MonthlyStat).status = .overBudget ↔
      ({ month := "2024-03", totalSpent := 6501, tripCount := 1,
         status := .overBudget, remainingBudget := 0 } : MonthlyStat).totalSpent > (6500 : ℚ)) ∧
    (({ month := "2024-03", totalSpent := 6501, tripCount := 1,
        status := .overBudget, remainingBudget := 0 } : MonthlyStat).status = .warning ↔
      (¬ ({ month := "2024-03", totalSpent := 6501, tripCount := 1,
            status := .overBudget, remainingBudget := 0 } : MonthlyStat).totalSpent > (6500 : ℚ) ∧
       ({ month := "2024-03", totalSpent := 6501, tripCount := 1,
          status := .overBudget, remainingBudget := 0 } : MonthlyStat).totalSpent ≥ (6500 : ℚ) * (4 / 5))) ∧
    (({ month := "2024-03", totalSpent := 6501, tripCount := 1,
        status := .overBudget, remainingBudget := 0 } : MonthlyStat).status = .safe ↔
      (¬ ({ month := "2024-03", totalSpent := 6501, tripCount := 1,
            status := .overBudget, remainingBudget := 0 } : MonthlyStat).totalSpent > (6500 : ℚ) ∧
       ¬ ({ month := "2024-03", totalSpent := 6501, tripCount := 1,
            status := .overBudget, remainingBudget := 0 } : MonthlyStat).totalSpent ≥ (6500 : ℚ) * (4 / 5))) :=
  monthlyStats_status_iff [sampleReceipt "2024-03-05" 6501] 6500 (by decide) _ (by decide)

unseal Nat.gcd Rat.add Rat.mul Rat.inv Rat.sub List.merge List.mergeSort in
/-- Counterexample for claim C1 as stated: with allowance 6500, the month
whose totalSpent is exactly 6500 is classified Warning by the code, not
Safe as the claim asserts; the claimed examples 5199 (Safe), 5200
(Warning) and 6501 (OverBudget) do hold. -/
theorem monthlyStats_status_counterexample :
    (∃ s ∈ monthlyStats [sampleReceipt "2024-03-05" 6500] 6500,
       s.totalSpent = 6500 ∧ s.status = .warning ∧ ¬ s.status = .safe) ∧
    (monthlyStats [sampleReceipt "2024-03-05" 5199] 6500).map MonthlyStat.status = [.safe] ∧
    (monthlyStats [sampleReceipt "2024-03-05" 5200] 6500).map MonthlyStat.status = [.warning] ∧
    (monthlyStats [sampleReceipt "2024-03-05" 6501] 6500).map MonthlyStat.status = [.overBudget] := by
  decide

theorem findStat_perm (A : ℚ) (k : String) (l1 l2 : List ReceiptData)
    (h : l1.Perm l2) (hnn : ∀ r ∈ l1, 0 ≤ r.amount) :
    findStat k (monthGroups l1 A) = findStat k (monthGroups l2 A) := by
  rw [findStat_monthGroups, findStat_monthGroups]
  have hp : (l1.filter (fun r => monthKeyOf r = k)).Perm
      (l2.filter (fun r => monthKeyOf r = k)) := h.filter _
  rcases h1 : l1.filter (fun r => monthKeyOf r = k) with _ | ⟨r, rs⟩
  · rw [h1] at hp
    rw [hp.nil_eq.symm]
  · rcases h2 : l2.filter (fun r => monthKeyOf r = k) with _ | ⟨q, qs⟩
    · rw [h1, h2] at hp
      exact absurd hp.symm.nil_eq (by simp)
    · rw [h1, h2] at hp
      have hnn1 : ∀ x ∈ (r :: rs), 0 ≤ x.amount := by
        intro x hx
        have : x ∈ l1.filter (fun r => monthKeyOf r = k) := h1 ▸ hx
        exact hnn x (List.mem_of_mem_filter this)
      have hnn2 : ∀ x ∈ (q :: qs), 0 ≤ x.amount := fun x hx =>
        hnn1 x (hp.symm.subset hx)
      show some (monthFold k A (r :: rs)) = some (monthFold k A (q :: qs))
      rw [monthFold_spec k A _ hnn1 (by simp), monthFold_spec k A _ hnn2 (by simp)]
      have hsum : totalAmount (r :: rs) = totalAmount (q :: qs) :=
        (hp.map ReceiptData.amount).sum_eq
      have hl : (r :: rs).length = (q :: qs).length := hp.length_eq
      rw [hsum, hl]

theorem mem_keys_iff_findStat (k : String) (g : List (String × MonthlyStat)) :
    k ∈ g.map Prod.fst ↔ (findStat k g).isSome := by
  induction g with
  | nil => simp [findStat_nil]
  | cons q g ih =>
    rw [List.map_cons, List.mem_cons, findStat_cons]
    by_cases h : q.1 = k
    · simp [h]
    · have : ¬ k = q.1 := fun hc => h hc.symm
      simp [h, this, ih]

theorem keys_perm (A : ℚ) (l1 l2 : List ReceiptData) (h : l1.Perm l2)
    (hnn : ∀ r ∈ l1, 0 ≤ r.amount) :
    ((monthGroups l1 A).map Prod.fst).Perm ((monthGroups l2 A).map Prod.fst) := by
  apply (List.perm_ext_iff_of_nodup (keysNodup_monthGroups A l1)
    (keysNodup_monthGroups A l2)).mpr
  intro k
  rw [mem_keys_iff_findStat, mem_keys_iff_findStat, findStat_perm A k l1 l2 h hnn]

theorem monthGroups_eq_keys_map (A : ℚ) (l : List ReceiptData) :
    monthGroups l A = ((monthGroups l A).map Prod.fst).map
      (fun k => (k, (findStat k (monthGroups l A)).getD (initStat k A))) := by
  rw [List.map_map]
  conv_lhs => rw [← List.map_id (monthGroups l A)]
  apply List.map_congr_left
  intro p hp
  have hf := findStat_of_mem_nodup _ (keysNodup_monthGroups A l) p hp
  simp only [id_eq, Function.comp_apply, hf, Option.getD_some]

theorem month_of_mem_values (A : ℚ) (l : List ReceiptData)
    (p : String × MonthlyStat) (hp : p ∈ monthGroups l A) : p.2.month = p.1 := by
  rcases mem_monthGroups_char A l p hp with ⟨_, h2⟩
  rw [h2, monthFold_month]

instance : IsAntisymm MonthlyStat (fun a b => b.month < a.month) :=
  ⟨fun _ _ h1 h2 => absurd h2 (lt_asymm h1)⟩

/-- Claim C4: for any two receipt lists that are permutations of each
other (amounts non-negative per the data model), the monthly aggregation
with the same allowance produces identical outputs: same month keys in
the same order, and for each month the same totalSpent, tripCount,
remainingBudget and status. -/
theorem monthlyStats_perm_invariant (l1 l2 : List ReceiptData) (A : ℚ)
    (h : l1.Perm l2) (hnn : ∀ r ∈ l1, 0 ≤ r.amount) :
    monthlyStats l1 A = monthlyStats l2 A := by
  have hfun : ∀ k, findStat k (monthGroups l1 A) = findStat k (monthGroups l2 A) :=
    fun k => findStat_perm A k l1 l2 h hnn
  have hkeys := keys_perm A l1 l2 h hnn
  have hv : ((monthGroups l1 A).map Prod.snd).Perm
      ((monthGroups l2 A).map Prod.snd) := by
    conv_lhs => rw [monthGroups_eq_keys_map A l1, List.map_map]
    conv_rhs => rw [monthGroups_eq_keys_map A l2, List.map_map]
    have hcong : ((monthGroups l2 A).map Prod.fst).map
        (Prod.snd ∘ fun k => (k, (findStat k (monthGroups l2 A)).getD (initStat k A))) =
        ((monthGroups l2 A).map Prod.fst).map
        (Prod.snd ∘ fun k => (k, (findStat k (monthGroups l1 A)).getD (initStat k A))) := by
      apply List.map_congr_left
      intro k _
      simp only [Function.comp_apply, hfun k]
    rw [hcong]
    exact hkeys.map _
  have hmonths1 : (((monthGroups l1 A).map Prod.snd).map MonthlyStat.month).Nodup := by
    rw [List.map_map]
    have : (monthGroups l1 A).map (MonthlyStat.month ∘ Prod.snd) =
        (monthGroups l1 A).map Prod.fst :=
      List.map_congr_left (fun p hp => month_of_mem_values A l1 p hp)
    rw [this]
    exact keysNodup_monthGroups A l1
  -- sortedness of both outputs with respect to the strict month order
  have hsorted : ∀ (v : List MonthlyStat),
      ((v.map MonthlyStat.month).Nodup) →
      (v.mergeSort (fun a b => decide (b.month ≤ a.month))).Pairwise
        (fun a b => b.month < a.month) := by
    intro v hnd
    have htr : ∀ (a b c : MonthlyStat),
        (fun a b => decide (b.month ≤ a.month)) a b →
        (fun a b => decide (b.month ≤ a.month)) b c →
        (fun a b => decide (b.month ≤ a.month)) a c := by
      intro a b c hab hbc
      exact decide_eq_true (le_trans (of_decide_eq_true hbc) (of_decide_eq_true hab))
    have hto : ∀ (a b : MonthlyStat),
        ((fun x y => decide (y.month ≤ x.month)) a b ||
         (fun x y => decide (y.month ≤ x.month)) b a) := by
      intro a b
      simpa [Bool.or_eq_true, decide_eq_true_eq] using le_total b.month a.month
    have hple := List.sorted_mergeSort htr hto v
    have hnd2 : ((v.mergeSort (fun a b => decide (b.month ≤ a.month))).map
        MonthlyStat.month).Nodup := by
      have hperm := (List.mergeSort_perm v
        (fun a b => decide (b.month ≤ a.month))).map MonthlyStat.month
      exact hperm.nodup_iff.mpr hnd
    have hpne : (v.mergeSort (fun a b => decide (b.month ≤ a.month))).Pairwise
        (fun a b => a.month ≠ b.month) := List.pairwise_map.mp hnd2
    have := hple.and hpne
    apply this.imp
    intro a b hab
    exact lt_of_le_of_ne (of_decide_eq_true hab.1) (fun hc => hab.2 hc.symm)
  have hmonths2 : (((monthGroups l2 A).map Prod.snd).map MonthlyStat.month).Nodup :=
    (hv.map MonthlyStat.month).nodup_iff.mp hmonths1
  have hs1 := hsorted _ hmonths1
  have hs2 := hsorted _ hmonths2
  have hperm12 : (((monthGroups l1 A).map Prod.snd).mergeSort
      (fun a b => decide (b.month ≤ a.month))).Perm
      (((monthGroups l2 A).map Prod.snd).mergeSort
      (fun a b => decide (b.month ≤ a.month))) :=
    ((List.mergeSort_perm _ _).trans hv).trans (List.mergeSort_perm _ _).symm
  exact List.eq_of_perm_of_sorted hperm12 hs1 hs2

unseal Nat.gcd Rat.add Rat.mul Rat.inv Rat.sub List.merge List.mergeSort in
/-- Witness for claim C4: a two-receipt list and its reversal aggregate
to the same output. -/
theorem monthlyStats_perm_invariant_witness :
    monthlyStats [sampleReceipt "2024-03-05" 100, sampleReceipt "2024-04-01" 200] 6500 =
      monthlyStats [sampleReceipt "2024-04-01" 200, sampleReceipt "2024-03-05" 100] 6500 :=
  monthlyStats_perm_invariant
    [sampleReceipt "2024-03-05" 100, sampleReceipt "2024-04-01" 200]
    [sampleReceipt "2024-04-01" 200, sampleReceipt "2024-03-05" 100] 6500
    (by decide) (by decide)

/-! ### Upload pipeline (handleUpload) -/

/-- The classification loop of handleUpload in the dashboard component:
the settled outcomes of the concurrent parseReceipt calls
(Promise.allSettled over files.map(parseReceipt)) are walked in order;
a fulfilled result pushes its receipt to newInvoices, a rejected one
pushes the file name to errors.  An outcome is modelled as the file
name paired with an Except value. -/
def handleUploadResults :
    List (String × Except String ReceiptData) → List ReceiptData × List String
  | [] => ([], [])
  | (_, .ok r) :: rest =>
    let p := handleUploadResults rest
    (r :: p.1, p.2)
  | (n, .error _) :: rest =>
    let p := handleUploadResults rest
    (p.1, n :: p.2)

/-- Claim C3: every file whose extraction settles successfully
contributes exactly one receipt to the added results, in order, and
every file whose extraction fails contributes exactly one error entry
naming that file; a failure never suppresses the other results.  In a
3-file batch where only file 2 fails, two receipts are added and one
error names file 2. -/
theorem handleUploadResults_settleAll :
    (∀ results : List (String × Except String ReceiptData),
      (handleUploadResults results).1 =
        results.filterMap (fun p =>
          match p.2 with | .ok r => some r | .error _ => none) ∧
      (handleUploadResults results).2 =
        results.filterMap (fun p =>
          match p.2 with | .ok _ => none | .error _ => some p.1)) ∧
    (∀ (n1 n2 n3 : String) (r1 r3 : ReceiptData) (e : String),
      handleUploadResults [(n1, .ok r1), (n2, .error e), (n3, .ok r3)] =
        ([r1, r3], [n2])) := by
  constructor
  · intro results
    induction results with
    | nil => exact ⟨rfl, rfl⟩
    | cons p rest ih =>
      rcases p with ⟨n, res⟩
      cases res with
      | ok r =>
        rw [List.filterMap_cons, List.filterMap_cons]
        exact ⟨by rw [handleUploadResults, ih.1], by rw [handleUploadResults, ih.2]⟩
      | error e =>
        rw [List.filterMap_cons, List.filterMap_cons]
        exact ⟨by rw [handleUploadResults, ih.1], by rw [handleUploadResults, ih.2]⟩
  · intro n1 n2 n3 r1 r3 e
    rfl

/-! ### Receipt parsing size gate (src/services/geminiService.ts) -/

/-- The base64 payload assembled by fileToGenerativePart. -/
structure GenerativePart where
  data : String
  mimeType : String
deriving DecidableEq, Repr

/-- Failure cases of receipt parsing, from the ReceiptError messages
thrown in src/services/geminiService.ts (the size error carries the
offending size; the message renders it in megabytes). -/
inductive ReceiptFailure where
  | tooLarge (sizeBytes : ℕ)
  | readError
  | emptyResponse
  | malformed
  | rateLimit
  | authError
  | unavailable
  | network
  | blocked
  | unknown
deriving DecidableEq, Repr

/-- Failures that can arise from the generateContent call and response
handling; the catch block of parseReceipt maps them to ReceiptError
messages, none of which is the size error. -/
inductive ServiceFailure where
  | emptyResponse
  | malformed
  | rateLimit
  | authError
  | unavailable
  | network
  | blocked
  | unknown
deriving DecidableEq, Repr

/-- The error mapping of the catch block in parseReceipt. -/
def ServiceFailure.toReceiptFailure : ServiceFailure → ReceiptFailure
  | .emptyResponse => .emptyResponse
  | .malformed => .malformed
  | .rateLimit => .rateLimit
  | .authError => .authError
  | .unavailable => .unavailable
  | .network => .network
  | .blocked => .blocked
  | .unknown => .unknown

/-- fileToGenerativePart (src/services/geminiService.ts): a file whose
size exceeds 20 * 1024 * 1024 bytes is rejected with the size error
before the FileReader is created; otherwise the read outcome decides
(a failed read becomes the read error). -/
def fileToGenerativePart (sizeBytes : ℕ) (read : Except Unit GenerativePart) :
    Except ReceiptFailure GenerativePart :=
  if sizeBytes > 20 * 1024 * 1024 then .error (.tooLarge sizeBytes)
  else read.mapError (fun _ => .readError)

/-- parseReceipt (src/services/geminiService.ts): first
fileToGenerativePart, then the external model call; the model call is a
parameter consumed only when the size gate and read succeed, and its
failures pass through the catch-block mapping. -/
def parseReceipt (sizeBytes : ℕ) (read : Except Unit GenerativePart)
    (service : GenerativePart → Except ServiceFailure ReceiptData) :
    Except ReceiptFailure ReceiptData :=
  match fileToGenerativePart sizeBytes read with
  | .error e => .error e
  | .ok part => (service part).mapError ServiceFailure.toReceiptFailure

/-- Claim C8: a file over the 20MB ceiling fails fast with the size
error, with a result independent of the read and of the external
extraction service (which is therefore never invoked); a file at or
under the ceiling is never rejected for size. -/
theorem parseReceipt_size_gate (sizeBytes : ℕ) :
    (sizeBytes > 20 * 1024 * 1024 →
      ∀ (read : Except Unit GenerativePart)
        (service : GenerativePart → Except ServiceFailure ReceiptData),
        parseReceipt sizeBytes read service = .error (.tooLarge sizeBytes)) ∧
    (sizeBytes ≤ 20 * 1024 * 1024 →
      ∀ (read : Except Unit GenerativePart)
        (service : GenerativePart → Except ServiceFailure ReceiptData)
        (s : ℕ),
        parseReceipt sizeBytes read service ≠ .error (.tooLarge s)) := by
  constructor
  · intro hgt read service
    rw [parseReceipt, fileToGenerativePart, if_pos hgt]
  · intro hle read service s
    have hngt : ¬ sizeBytes > 20 * 1024 * 1024 := not_lt.mpr hle
    rw [parseReceipt, fileToGenerativePart, if_neg hngt]
    cases read with
    | error u => simp [Except.mapError]
    | ok part =>
      simp only [Except.mapError]
      cases hsvc : service part with
      | ok r => simp
      | error f => cases f <;> simp [ServiceFailure.toReceiptFailure]

/-- Witness for claim C8: a 21MB file is rejected with the size error;
a file of exactly the 20MB ceiling is not rejected for size. -/
theorem parseReceipt_size_gate_witness :
    parseReceipt (21 * 1024 * 1024) (.error ())
        (fun _ => .error .unknown) = .error (.tooLarge (21 * 1024 * 1024)) ∧
    parseReceipt (20 * 1024 * 1024) (.ok ⟨"d", "image/png"⟩)
        (fun _ => .error .unknown) ≠ .error (.tooLarge (20 * 1024 * 1024)) :=
  ⟨(parseReceipt_size_gate (21 * 1024 * 1024)).1 (by decide) _ _,
   (parseReceipt_size_gate (20 * 1024 * 1024)).2 (by decide) _ _ _⟩

/-! ### Sort engine (HistoryTable revision with sortable headers) -/

/-- Sort keys of the history table. -/
inductive SortKey where
  | date
  | amount
  | pickupLocation
deriving DecidableEq, Repr

/-- Sort directions of the history table. -/
inductive SortDirection where
  | asc
  | desc
deriving DecidableEq, Repr

/-- The SortConfig state of the history table. -/
structure SortConfig where
  key : SortKey
  direction : SortDirection
deriving DecidableEq, Repr

/-- handleSort of HistoryTable: the new direction is asc exactly when the
selected key is the current key and the current direction is desc;
otherwise desc. -/
def handleSort (key : SortKey) (current : SortConfig) : SortConfig :=
  { key := key
    direction :=
      if current.key = key ∧ current.direction = .desc then .asc else .desc }

/-- The comparator of sortedInvoices in HistoryTable.  The date branch
combines date and time (missing time defaults to 00:00) into an instant
via the Date constructor and compares the epoch values; the epoch
conversion is passed as a parameter (on the well-formed ISO strings
involved its order agrees with lexicographic order of the combined
string).  The amount branch compares numerically; the pickupLocation
branch compares the lower-cased strings (the or-empty guard in the
source is the identity on strings). -/
def invoiceCompare (timestamp : ReceiptData → ℚ) (cfg : SortConfig)
    (a b : ReceiptData) : ℚ :=
  match cfg.key with
  | .date =>
    if cfg.direction = .asc then timestamp a - timestamp b
    else timestamp b - timestamp a
  | .amount =>
    if cfg.direction = .asc then a.amount - b.amount
    else b.amount - a.amount
  | .pickupLocation =>
    let valA := a.pickupLocation.toLower
    let valB := b.pickupLocation.toLower
    if valA < valB then (if cfg.direction = .asc then -1 else 1)
    else if valB < valA then (if cfg.direction = .asc then 1 else -1)
    else 0

/-- sortedInvoices of HistoryTable: a stable sort of a copy of the
invoice list by the comparator (Array.prototype.sort is stable and,
for a consistent comparator, sorts so that the comparator of
consecutive elements is at most zero; modelled by mergeSort). -/
def sortedInvoices (timestamp : ReceiptData → ℚ) (cfg : SortConfig)
    (invoices : List ReceiptData) : List ReceiptData :=
  invoices.mergeSort (fun a b => decide (invoiceCompare timestamp cfg a b ≤ 0))

/-- Claim C9: selecting the active column key flips the direction
(desc to asc and asc to desc) and selecting a different key resets to
desc; hence from the state (amount, asc), selecting amount again gives
(amount, desc), and the resulting sort is a permutation of the invoice
list that is descending in amount. -/
theorem handleSort_toggle :
    (∀ current : SortConfig,
      handleSort current.key current =
        ⟨current.key, if current.direction = .desc then .asc else .desc⟩) ∧
    (∀ (key : SortKey) (current : SortConfig), current.key ≠ key →
      handleSort key current = ⟨key, .desc⟩) ∧
    (∀ (timestamp : ReceiptData → ℚ) (invoices : List ReceiptData),
      (handleSort .amount ⟨.amount, .asc⟩).direction = .desc ∧
      (sortedInvoices timestamp (handleSort .amount ⟨.amount, .asc⟩) invoices).Perm
        invoices ∧
      (sortedInvoices timestamp (handleSort .amount ⟨.amount, .asc⟩) invoices).Pairwise
        (fun a b => b.amount ≤ a.amount)) := by
  refine ⟨?_, ?_, ?_⟩
  · intro c
    rw [handleSort]
    by_cases h : c.direction = .desc
    · rw [if_pos ⟨rfl, h⟩, if_pos h]
    · rw [if_neg (fun hc => h hc.2), if_neg h]
  · intro key c h
    rw [handleSort, if_neg (fun hc => h hc.1)]
  · intro timestamp invoices
    refine ⟨rfl, List.mergeSort_perm _ _, ?_⟩
    have htr : ∀ (a b c : ReceiptData),
        (fun a b => decide (invoiceCompare timestamp ⟨.amount, .desc⟩ a b ≤ 0)) a b →
        (fun a b => decide (invoiceCompare timestamp ⟨.amount, .desc⟩ a b ≤ 0)) b c →
        (fun a b => decide (invoiceCompare timestamp ⟨.amount, .desc⟩ a b ≤ 0)) a c := by
      intro a b c hab hbc
      have h1 : b.amount - a.amount ≤ 0 := of_decide_eq_true hab
      have h2 : c.amount - b.amount ≤ 0 := of_decide_eq_true hbc
      have h3 : c.amount - a.amount ≤ 0 := by linarith
      exact decide_eq_true
        (show invoiceCompare timestamp ⟨.amount, .desc⟩ a c ≤ 0 from h3)
    have hto : ∀ (a b : ReceiptData),
        ((fun x y => decide (invoiceCompare timestamp ⟨.amount, .desc⟩ x y ≤ 0)) a b ||
         (fun x y => decide (invoiceCompare timestamp ⟨.amount, .desc⟩ x y ≤ 0)) b a) := by
      intro a b
      have : invoiceCompare timestamp ⟨.amount, .desc⟩ a b ≤ 0 ∨
          invoiceCompare timestamp ⟨.amount, .desc⟩ b a ≤ 0 := by
        show b.amount - a.amount ≤ 0 ∨ a.amount - b.amount ≤ 0
        rcases le_total b.amount a.amount with h | h
        · exact Or.inl (by linarith)
        · exact Or.inr (by linarith)
      simpa [Bool.or_eq_true, decide_eq_true_eq] using this
    have hple := List.sorted_mergeSort htr hto invoices
    apply hple.imp
    intro a b hab
    have : b.amount - a.amount ≤ 0 := of_decide_eq_true hab
    linarith

/-- Witness for claim C9: selecting amount while sorted by date resets
to (amount, desc). -/
theorem handleSort_toggle_witness :
    handleSort .amount ⟨.date, .asc⟩ = ⟨.amount, .desc⟩ :=
  handleSort_toggle.2.1 .amount ⟨.date, .asc⟩ (by decide)

/-! ### Trip type derivation (ingestion pipeline) -/

/-- The field set returned by the extraction collaborator
(date, time, amount required; tripType optional). -/
structure ExtractedFields where
  date : String
  time : String
  amount : ℚ
  currency : String
  pickupLocation : String
  dropoffLocation : String
  tripType : Option String
deriving DecidableEq, Repr

/-- Modelled from the spec: the office keyword classification rule of
the data model section, whose implementation is not among the source
files (the geminiService revisions in src contain no tripType
derivation).  Matching a location against the office keyword list is
abstracted as the predicate isOffice.  If the dropoff matches and the
pickup does not, the trip is Home to Office; if the pickup matches and
the dropoff does not, Office to Home; otherwise the classification the
extraction step proposed is kept, defaulting to Commute. -/
def deriveTripType (isOffice : String → Bool) (pickup dropoff : String)
    (proposed : Option String) : String :=
  if isOffice dropoff && !isOffice pickup then "Home to Office"
  else if isOffice pickup && !isOffice dropoff then "Office to Home"
  else proposed.getD "Commute"

/-- Modelled from the spec: assembly of a candidate receipt in the
ingestion pipeline — a fresh unique id, the extracted fields, and a
tripType derived by the keyword rule regardless of the tripType the
collaborator returned (the collaborator value enters only as the
fallback classification). -/
def assembleReceipt (isOffice : String → Bool) (newId : String)
    (e : ExtractedFields) : ReceiptData :=
  { id := newId
    date := e.date
    time := e.time
    amount := e.amount
    currency := e.currency
    pickupLocation := e.pickupLocation
    dropoffLocation := e.dropoffLocation
    tripType := deriveTripType isOffice e.pickupLocation e.dropoffLocation e.tripType }

/-- Claim C7: for every successfully extracted receipt the pipeline sets
tripType by the office keyword rule — Home to Office when only the
dropoff matches, Office to Home when only the pickup matches, and
otherwise the proposed classification (default Commute) — overriding
the tripType the extraction collaborator returned. -/
theorem assembleReceipt_tripType (isOffice : String → Bool) (newId : String)
    (e : ExtractedFields) :
    (isOffice e.dropoffLocation = true → isOffice e.pickupLocation = false →
      (assembleReceipt isOffice newId e).tripType = "Home to Office") ∧
    (isOffice e.pickupLocation = true → isOffice e.dropoffLocation = false →
      (assembleReceipt isOffice newId e).tripType = "Office to Home") ∧
    (isOffice e.pickupLocation = isOffice e.dropoffLocation →
      (assembleReceipt isOffice newId e).tripType = e.tripType.getD "Commute") := by
  refine ⟨?_, ?_, ?_⟩ <;> intro h1 <;>
    cases hd : isOffice e.dropoffLocation <;>
    cases hp : isOffice e.pickupLocation <;>
    simp_all [assembleReceipt, deriveTripType, hd, hp]

/-- Witness for claim C7: with the keyword predicate matching exactly
the string Office, a receipt extracted with pickup Home, dropoff Office
and proposed classification Personal is assembled as Home to Office. -/
theorem assembleReceipt_tripType_witness :
    (assembleReceipt (fun s => s == "Office") "id1"
      ⟨"2024-03-05", "09:00", 100, "INR", "Home", "Office", some "Personal"⟩).tripType =
      "Home to Office" :=
  (assembleReceipt_tripType (fun s => s == "Office") "id1"
    ⟨"2024-03-05", "09:00", 100, "INR", "Home", "Office", some "Personal"⟩).1
    (by decide) (by decide)

/-! ### Duplicate detection (upload pipeline) -/

/-- The exact duplicate-detection tuple of a receipt from the data-model
invariant: (date, time, amount, pickupLocation, dropoffLocation); two
receipts are the same trip when their tuples are equal, even though
their ids differ. -/
def tripTuple (r : ReceiptData) : String × String × ℚ × String × String :=
  (r.date, r.time, r.amount, r.pickupLocation, r.dropoffLocation)

/-- Modelled from the spec: the duplicate-detection step of the upload
pipeline, whose implementation is not among the source files (the
handleUpload in src has no duplicate check; only the UploadResultModal
props declare the duplicates report).  Each candidate receipt, in batch
order, is checked by the exact tuple rule against the existing receipt
store and the candidates already accepted in this batch (as the
duplicate-detection property of the spec requires); a duplicate is
excluded from the receipts to persist and reported with its file name,
a non-duplicate is added. -/
def dedupeBatch (seen : List ReceiptData) :
    List (String × ReceiptData) → List ReceiptData × List (String × ReceiptData)
  | [] => ([], [])
  | (fn, r) :: rest =>
    if seen.any (fun s => tripTuple s = tripTuple r) then
      let p := dedupeBatch seen rest
      (p.1, (fn, r) :: p.2)
    else
      let p := dedupeBatch (r :: seen) rest
      (r :: p.1, p.2)

theorem dedupeBatch_count_seen (t : String × String × ℚ × String × String) :
    ∀ (batch : List (String × ReceiptData)) (seen : List ReceiptData),
      (∃ s ∈ seen, tripTuple s = t) →
      (dedupeBatch seen batch).1.countP (fun r => tripTuple r = t) = 0 ∧
      (dedupeBatch seen batch).2.countP (fun p => tripTuple p.2 = t) =
        batch.countP (fun p => tripTuple p.2 = t) := by
  intro batch
  induction batch with
  | nil => intro seen _; exact ⟨rfl, rfl⟩
  | cons hd rest ih =>
    intro seen hseen
    rcases hd with ⟨fn, r⟩
    by_cases hdup : seen.any (fun s => tripTuple s = tripTuple r) = true
    · rw [dedupeBatch, if_pos hdup]
      rcases ih seen hseen with ⟨ih1, ih2⟩
      refine ⟨ih1, ?_⟩
      rw [List.countP_cons, List.countP_cons, ih2]
    · rw [dedupeBatch, if_neg hdup]
      have hrt : ¬ tripTuple r = t := by
        intro hc
        rcases hseen with ⟨s, hs, hst⟩
        exact hdup (List.any_eq_true.mpr ⟨s, hs, by simp [hst, hc]⟩)
      have hseen2 : ∃ s ∈ r :: seen, tripTuple s = t := by
        rcases hseen with ⟨s, hs, hst⟩
        exact ⟨s, List.mem_cons_of_mem r hs, hst⟩
      rcases ih (r :: seen) hseen2 with ⟨ih1, ih2⟩
      refine ⟨?_, ?_⟩
      · rw [List.countP_cons, ih1]
        simp [hrt]
      · rw [List.countP_cons, ih2]
        simp [hrt]

theorem dedupeBatch_count_unseen (t : String × String × ℚ × String × String) :
    ∀ (batch : List (String × ReceiptData)) (seen : List ReceiptData),
      (∀ s ∈ seen, tripTuple s ≠ t) →
      (dedupeBatch seen batch).1.countP (fun r => tripTuple r = t) =
        min 1 (batch.countP (fun p => tripTuple p.2 = t)) ∧
      (dedupeBatch seen batch).2.countP (fun p => tripTuple p.2 = t) =
        batch.countP (fun p => tripTuple p.2 = t) -
          min 1 (batch.countP (fun p => tripTuple p.2 = t)) := by
  intro batch
  induction batch with
  | nil => intro seen _; exact ⟨rfl, rfl⟩
  | cons hd rest ih =>
    intro seen hseen
    rcases hd with ⟨fn, r⟩
    by_cases hrt : tripTuple r = t
    · have hdup : ¬ seen.any (fun s => tripTuple s = tripTuple r) = true := by
        intro hc
        rcases List.any_eq_true.mp hc with ⟨s, hs, hst⟩
        exact hseen s hs ((of_decide_eq_true hst).trans hrt)
      rw [dedupeBatch, if_neg hdup]
      have hseen2 : ∃ s ∈ r :: seen, tripTuple s = t :=
        ⟨r, List.mem_cons_self r seen, hrt⟩
      rcases dedupeBatch_count_seen t rest (r :: seen) hseen2 with ⟨h1, h2⟩
      refine ⟨?_, ?_⟩
      · rw [List.countP_cons, h1]
        simp [hrt]
      · rw [List.countP_cons, h2]
        simp [hrt]
    · by_cases hdup : seen.any (fun s => tripTuple s = tripTuple r) = true
      · rw [dedupeBatch, if_pos hdup]
        rcases ih seen hseen with ⟨ih1, ih2⟩
        have hcnt : ((fn, r) :: rest).countP (fun p => tripTuple p.2 = t) =
            rest.countP (fun p => tripTuple p.2 = t) := by
          rw [List.countP_cons]
          simp [hrt]
        refine ⟨by rw [hcnt]; exact ih1, ?_⟩
        show ((fn, r) :: (dedupeBatch seen rest).2).countP
            (fun p => tripTuple p.2 = t) = _
        rw [List.countP_cons, hcnt, ih2]
        simp [hrt]
      · rw [dedupeBatch, if_neg hdup]
        have hseen2 : ∀ s ∈ r :: seen, tripTuple s ≠ t := by
          intro s hs
          rcases List.mem_cons.mp hs with h | h
          · rw [h]; exact hrt
          · exact hseen s h
        rcases ih (r :: seen) hseen2 with ⟨ih1, ih2⟩
        refine ⟨?_, ?_⟩
        · rw [List.countP_cons, ih1]
          simp [hrt]
        · rw [List.countP_cons, ih2]
          simp [hrt]

/-- Claim C2 (amended): for every existing receipt store containing no
receipt with the given tuple, and every uploaded batch in which exactly
two files extract to receipts with that exact tuple
(date, time, amount, pickupLocation, dropoffLocation), the batch result
contains exactly one added receipt with that tuple and exactly one
reported duplicate with it, excluded from the receipts to persist,
regardless of upload order. -/
theorem dedupeBatch_two_duplicates (store : List ReceiptData)
    (batch : List (String × ReceiptData))
    (t : String × String × ℚ × String × String)
    (hstore : ∀ s ∈ store, tripTuple s ≠ t)
    (hbatch : batch.countP (fun p => tripTuple p.2 = t) = 2) :
    (dedupeBatch store batch).1.countP (fun r => tripTuple r = t) = 1 ∧
    (dedupeBatch store batch).2.countP (fun p => tripTuple p.2 = t) = 1 := by
  rcases dedupeBatch_count_unseen t batch store hstore with ⟨h1, h2⟩
  rw [hbatch] at h1 h2
  exact ⟨h1, h2⟩

unseal Nat.gcd Rat.add Rat.mul Rat.inv Rat.sub in
/-- Witness for claim C2: an empty store and a two-file batch whose
receipts share the tuple yield one added receipt and one reported
duplicate. -/
theorem dedupeBatch_two_duplicates_witness :
    (dedupeBatch []
        [("a.png", ⟨"id1", "2024-03-05", "09:00", 100, "INR", "Home", "Office", "Commute"⟩),
         ("b.png", ⟨"id2", "2024-03-05", "09:00", 100, "INR", "Home", "Office", "Commute"⟩)]).1.countP
      (fun r => tripTuple r = ("2024-03-05", "09:00", (100 : ℚ), "Home", "Office")) = 1 ∧
    (dedupeBatch []
        [("a.png", ⟨"id1", "2024-03-05", "09:00", 100, "INR", "Home", "Office", "Commute"⟩),
         ("b.png", ⟨"id2", "2024-03-05", "09:00", 100, "INR", "Home", "Office", "Commute"⟩)]).2.countP
      (fun p => tripTuple p.2 = ("2024-03-05", "09:00", (100 : ℚ), "Home", "Office")) = 1 :=
  dedupeBatch_two_duplicates []
    [("a.png", ⟨"id1", "2024-03-05", "09:00", 100, "INR", "Home", "Office", "Commute"⟩),
     ("b.png", ⟨"id2", "2024-03-05", "09:00", 100, "INR", "Home", "Office", "Commute"⟩)]
    ("2024-03-05", "09:00", (100 : ℚ), "Home", "Office")
    (by simp) (by decide)

unseal Nat.gcd Rat.add Rat.mul Rat.inv Rat.sub in
/-- Counterexample for claim C2 as stated: the claim quantifies over
every existing receipt store, but when the store already contains a
receipt with the same tuple, both uploaded files are reported as
duplicates and no receipt is added, so the batch result does not
contain exactly one added receipt for that tuple. -/
theorem dedupeBatch_two_duplicates_counterexample :
    (dedupeBatch [⟨"id0", "2024-03-05", "09:00", 100, "INR", "Home", "Office", "Commute"⟩]
        [("a.png", ⟨"id1", "2024-03-05", "09:00", 100, "INR", "Home", "Office", "Commute"⟩),
         ("b.png", ⟨"id2", "2024-03-05", "09:00", 100, "INR", "Home", "Office", "Commute"⟩)]).1.countP
      (fun r => tripTuple r = ("2024-03-05", "09:00", (100 : ℚ), "Home", "Office")) = 0 ∧
    (dedupeBatch [⟨"id0", "2024-03-05", "09:00", 100, "INR", "Home", "Office", "Commute"⟩]
        [("a.png", ⟨"id1", "2024-03-05", "09:00", 100, "INR", "Home", "Office", "Commute"⟩),
         ("b.png", ⟨"id2", "2024-03-05", "09:00", 100, "INR", "Home", "Office", "Commute"⟩)]).2.countP
      (fun p => tripTuple p.2 = ("2024-03-05", "09:00", (100 : ℚ), "Home", "Office")) = 2 := by
  decide

/-! ### Month navigation (navigateMonth of the dashboard component)

JavaScript strings are modelled as lists of characters here, because
navigateMonth takes the selected month key apart character by
character: split on the dash, convert with Number, rebuild with a
template literal. -/

/-- The decimal digit character of a value below ten (values of ten or
more cannot arise: the function is only applied to remainders modulo
ten and to values checked to be below ten). -/
def digitChar (d : ℕ) : Char :=
  match d with
  | 0 => '0' | 1 => '1' | 2 => '2' | 3 => '3' | 4 => '4'
  | 5 => '5' | 6 => '6' | 7 => '7' | 8 => '8' | _ => '9'

/-- Decimal rendering of a natural number, most significant digit
first: the template-literal rendering of a non-negative JavaScript
integer.  The fuel argument bounds the recursion and is initialised to
the number itself, which suffices since the value shrinks by a factor
of ten at each step. -/
def natToCharsAux : ℕ → ℕ → List Char → List Char
  | 0, n, acc => digitChar (n % 10) :: acc
  | fuel + 1, n, acc =>
    if n < 10 then digitChar n :: acc
    else natToCharsAux fuel (n / 10) (digitChar (n % 10) :: acc)

/-- String(n) for a non-negative integer n. -/
def natToChars (n : ℕ) : List Char :=
  natToCharsAux n n []

/-- String(i) for a JavaScript integer: a leading minus sign when
negative. -/
def intToChars (i : ℤ) : List Char :=
  if i < 0 then '-' :: natToChars i.natAbs else natToChars i.toNat

/-- String(value).padStart(2, "0"). -/
def padTwoChars (cs : List Char) : List Char :=
  List.replicate (2 - cs.length) '0' ++ cs

/-- Number(part) for the parts of a month key: a string of digits
(possibly empty, value zero) is folded left to right; a string with a
non-digit character is not a number (NaN, modelled as none).  Number
also accepts signs, spaces and fraction syntax, which cannot occur in
a part produced by splitting a rendered month key on its dash. -/
def jsNumber (cs : List Char) : Option ℕ :=
  if cs.all Char.isDigit then
    some (cs.foldl (fun a c => a * 10 + (c.toNat - 48)) 0)
  else none

/-- String.prototype.split on the dash separator. -/
def splitDash : List Char → List (List Char)
  | [] => [[]]
  | c :: rest =>
    if c = '-' then [] :: splitDash rest
    else
      match splitDash rest with
      | [] => [[c]]
      | s :: ss => (c :: s) :: ss

/-- navigateMonth of the dashboard component, on the characters of the
selected month key: split the key on the dash, convert the first two
parts with Number (a missing part is undefined, hence NaN), construct
the Date at day 15 of (year, month - 1 + direction) — the Date
constructor maps year arguments 0 to 99 to 1900 to 1999 and normalises
any month index into the year with floor division; day 15 never
overflows a month — and reassemble newYear-newMonth with the month
padded to two digits.  A key without two numeric parts renders NaN
into the output. -/
def navigateMonthChars (key : List Char) (direction : ℤ) : List Char :=
  let parts := splitDash key
  match (parts.get? 0).bind jsNumber, (parts.get? 1).bind jsNumber with
  | some year, some month =>
    let effYear : ℤ := if year ≤ 99 then (year : ℤ) + 1900 else (year : ℤ)
    let total : ℤ := effYear * 12 + ((month : ℤ) - 1 + direction)
    intToChars (total.fdiv 12) ++ '-' :: padTwoChars (natToChars (total.fmod 12 + 1).toNat)
  | _, _ => "NaN-NaN".data

/-- navigateMonth on the selected month key string. -/
def navigateMonth (key : String) (direction : ℤ) : String :=
  ⟨navigateMonthChars key.data direction⟩

/-- The month key the dashboard renders for a year and month:
the year followed by a dash and the two-digit-padded month. -/
def monthKeyString (year month : ℕ) : String :=
  ⟨natToChars year ++ '-' :: padTwoChars (natToChars month)⟩

theorem digitChar_isDigit (d : ℕ) (h : d < 10) : (digitChar d).isDigit = true := by
  interval_cases d <;> decide

theorem digitChar_toNat (d : ℕ) (h : d < 10) : (digitChar d).toNat - 48 = d := by
  interval_cases d <;> decide

theorem isDigit_ne_dash (c : Char) (h : c.isDigit = true) : c ≠ '-' := by
  intro hc
  rw [hc] at h
  exact absurd h (by decide)

theorem natToCharsAux_append (fuel : ℕ) :
    ∀ (n : ℕ) (acc : List Char),
      natToCharsAux fuel n acc = natToCharsAux fuel n [] ++ acc := by
  induction fuel with
  | zero => intro n acc; rfl
  | succ fuel ih =>
    intro n acc
    by_cases h : n < 10
    · rw [natToCharsAux, natToCharsAux, if_pos h, if_pos h]
      rfl
    · rw [natToCharsAux, natToCharsAux, if_neg h, if_neg h,
        ih (n / 10) (digitChar (n % 10) :: acc), ih (n / 10) [digitChar (n % 10)],
        List.append_assoc]
      rfl

theorem natToCharsAux_all_digit (fuel : ℕ) :
    ∀ (n : ℕ) (c : Char), c ∈ natToCharsAux fuel n [] → c.isDigit = true := by
  induction fuel with
  | zero =>
    intro n c hc
    rw [natToCharsAux] at hc
    rcases List.mem_singleton.mp hc with rfl
    exact digitChar_isDigit _ (Nat.mod_lt n (by omega))
  | succ fuel ih =>
    intro n c hc
    by_cases h : n < 10
    · rw [natToCharsAux, if_pos h] at hc
      rcases List.mem_singleton.mp hc with rfl
      exact digitChar_isDigit _ h
    · rw [natToCharsAux, if_neg h,
        natToCharsAux_append fuel (n / 10) [digitChar (n % 10)]] at hc
      rcases List.mem_append.mp hc with h1 | h1
      · exact ih (n / 10) c h1
      · rcases List.mem_singleton.mp h1 with rfl
        exact digitChar_isDigit _ (Nat.mod_lt n (by omega))

theorem natToChars_all_digit (n : ℕ) (c : Char) (hc : c ∈ natToChars n) :
    c.isDigit = true :=
  natToCharsAux_all_digit n n c hc

theorem decode_natToCharsAux (fuel : ℕ) :
    ∀ n : ℕ, n < 10 ^ (fuel + 1) →
      ∃ p : ℕ, 0 < p ∧ ∀ i : ℕ,
        (natToCharsAux fuel n []).foldl (fun a c => a * 10 + (c.toNat - 48)) i =
          i * p + n := by
  induction fuel with
  | zero =>
    intro n hn
    refine ⟨10, by omega, fun i => ?_⟩
    rw [natToCharsAux]
    have h10 : n < 10 := by simpa using hn
    rw [Nat.mod_eq_of_lt h10]
    show i * 10 + ((digitChar n).toNat - 48) = i * 10 + n
    rw [digitChar_toNat n h10]
  | succ fuel ih =>
    intro n hn
    by_cases h : n < 10
    · refine ⟨10, by omega, fun i => ?_⟩
      rw [natToCharsAux, if_pos h]
      show i * 10 + ((digitChar n).toNat - 48) = i * 10 + n
      rw [digitChar_toNat n h]
    · have hdiv : n / 10 < 10 ^ (fuel + 1) := by
        rw [Nat.div_lt_iff_lt_mul (by omega)]
        calc n < 10 ^ (fuel + 1 + 1) := hn
        _ = 10 ^ (fuel + 1) * 10 := by ring
      rcases ih (n / 10) hdiv with ⟨p, hp, hdec⟩
      refine ⟨p * 10, by positivity, fun i => ?_⟩
      rw [natToCharsAux, if_neg h,
        natToCharsAux_append fuel (n / 10) [digitChar (n % 10)],
        List.foldl_append, hdec i]
      show (i * p + n / 10) * 10 + ((digitChar (n % 10)).toNat - 48) = i * (p * 10) + n
      rw [digitChar_toNat _ (Nat.mod_lt n (by omega))]
      have := Nat.div_add_mod n 10
      ring_nf
      omega

theorem jsNumber_natToChars (n : ℕ) : jsNumber (natToChars n) = some n := by
  have hlt : n < 10 ^ (n + 1) := by
    calc n < 2 ^ n := Nat.lt_two_pow n
    _ ≤ 10 ^ n := Nat.pow_le_pow_left (by omega) n
    _ ≤ 10 ^ (n + 1) := Nat.pow_le_pow_right (by omega) (by omega)
  rcases decode_natToCharsAux n n hlt with ⟨p, _, hdec⟩
  rw [jsNumber, if_pos]
  · rw [natToChars, hdec 0]
    simp
  · exact List.all_eq_true.mpr (fun c hc => natToChars_all_digit n c hc)

theorem jsNumber_padTwo_natToChars (m : ℕ) :
    jsNumber (padTwoChars (natToChars m)) = some m := by
  have hz : ∀ k : ℕ, ∀ c ∈ List.replicate k '0', c.isDigit = true := by
    intro k c hc
    rcases List.eq_of_mem_replicate hc with rfl
    decide
  have hlt : m < 10 ^ (m + 1) := by
    calc m < 2 ^ m := Nat.lt_two_pow m
    _ ≤ 10 ^ m := Nat.pow_le_pow_left (by omega) m
    _ ≤ 10 ^ (m + 1) := Nat.pow_le_pow_right (by omega) (by omega)
  rcases decode_natToCharsAux m m hlt with ⟨p, _, hdec⟩
  rw [jsNumber, if_pos]
  · rw [padTwoChars, List.foldl_append]
    have hzero : ∀ k : ℕ,
        (List.replicate k '0').foldl (fun a c => a * 10 + (c.toNat - 48)) 0 = 0 := by
      intro k
      induction k with
      | zero => rfl
      | succ k ihk =>
        rw [List.replicate_succ, List.foldl_cons]
        simpa using ihk
    rw [hzero, natToChars, hdec 0]
    simp
  · apply List.all_eq_true.mpr
    intro c hc
    rw [padTwoChars] at hc
    rcases List.mem_append.mp hc with h1 | h1
    · exact hz _ c h1
    · exact natToChars_all_digit m c h1

theorem splitDash_no_dash (cs : List Char) (h : ∀ c ∈ cs, c ≠ '-') :
    splitDash cs = [cs] := by
  induction cs with
  | nil => rfl
  | cons c rest ih =>
    have hc : ¬ c = '-' := h c (List.mem_cons_self c rest)
    rw [splitDash, if_neg hc, ih (fun x hx => h x (List.mem_cons_of_mem c hx))]

theorem splitDash_append (xs ys : List Char) (h : ∀ c ∈ xs, c ≠ '-') :
    splitDash (xs ++ '-' :: ys) = xs :: splitDash ys := by
  induction xs with
  | nil =>
    rw [List.nil_append, splitDash, if_pos rfl]
  | cons c xs ih =>
    have hc : ¬ c = '-' := h c (List.mem_cons_self c xs)
    rw [List.cons_append, splitDash, if_neg hc,
      ih (fun x hx => h x (List.mem_cons_of_mem c hx))]

theorem navigateMonthChars_parse (y m : ℕ) (d : ℤ) :
    navigateMonthChars (natToChars y ++ '-' :: padTwoChars (natToChars m)) d =
      intToChars (((if y ≤ 99 then (y : ℤ) + 1900 else (y : ℤ)) * 12 +
          ((m : ℤ) - 1 + d)).fdiv 12) ++ '-' ::
        padTwoChars (natToChars (((if y ≤ 99 then (y : ℤ) + 1900 else (y : ℤ)) * 12 +
          ((m : ℤ) - 1 + d)).fmod 12 + 1).toNat) := by
  have hy : ∀ c ∈ natToChars y, c ≠ '-' :=
    fun c hc => isDigit_ne_dash c (natToChars_all_digit y c hc)
  have hm : ∀ c ∈ padTwoChars (natToChars m), c ≠ '-' := by
    intro c hc
    rw [padTwoChars] at hc
    rcases List.mem_append.mp hc with h1 | h1
    · rcases List.eq_of_mem_replicate h1 with rfl
      decide
    · exact isDigit_ne_dash c (natToChars_all_digit m c h1)
  have hsplit : splitDash (natToChars y ++ '-' :: padTwoChars (natToChars m)) =
      [natToChars y, padTwoChars (natToChars m)] := by
    rw [splitDash_append _ _ hy, splitDash_no_dash _ hm]
  rw [navigateMonthChars, hsplit]
  simp only [List.get?, Option.some_bind, jsNumber_natToChars,
    jsNumber_padTwo_natToChars]

theorem intToChars_natCast (n : ℕ) : intToChars ((n : ℕ) : ℤ) = natToChars n := by
  rw [intToChars, if_neg (by omega)]
  norm_num

theorem navigateMonth_plus (y m : ℕ) (hy : 100 ≤ y) (hm1 : 1 ≤ m) (hm2 : m ≤ 12) :
    navigateMonth (monthKeyString y m) 1 =
      monthKeyString (if m = 12 then y + 1 else y) (if m = 12 then 1 else m + 1) := by
  rw [navigateMonth, monthKeyString, monthKeyString]
  apply congrArg String.mk
  show navigateMonthChars (natToChars y ++ '-' :: padTwoChars (natToChars m)) 1 = _
  rw [navigateMonthChars_parse, if_neg (by omega : ¬ y ≤ 99)]
  have e1 : ((y : ℤ) * 12 + ((m : ℤ) - 1 + 1)).fdiv 12 =
      (((if m = 12 then y + 1 else y) : ℕ) : ℤ) := by
    rw [Int.fdiv_eq_ediv _ (by omega)]
    by_cases h : m = 12
    · subst h
      rw [if_pos rfl]
      omega
    · rw [if_neg h]
      omega
  have e2 : (((y : ℤ) * 12 + ((m : ℤ) - 1 + 1)).fmod 12 + 1).toNat =
      (if m = 12 then 1 else m + 1) := by
    rw [Int.fmod_eq_emod _ (by omega)]
    by_cases h : m = 12
    · subst h
      rw [if_pos rfl]
      omega
    · rw [if_neg h]
      omega
  rw [e1, intToChars_natCast, e2]

theorem navigateMonth_minus (y m : ℕ) (hy : 100 ≤ y) (hm1 : 1 ≤ m) (hm2 : m ≤ 12) :
    navigateMonth (monthKeyString y m) (-1) =
      monthKeyString (if m = 1 then y - 1 else y) (if m = 1 then 12 else m - 1) := by
  rw [navigateMonth, monthKeyString, monthKeyString]
  apply congrArg String.mk
  show navigateMonthChars (natToChars y ++ '-' :: padTwoChars (natToChars m)) (-1) = _
  rw [navigateMonthChars_parse, if_neg (by omega : ¬ y ≤ 99)]
  have e1 : ((y : ℤ) * 12 + ((m : ℤ) - 1 + (-1))).fdiv 12 =
      (((if m = 1 then y - 1 else y) : ℕ) : ℤ) := by
    rw [Int.fdiv_eq_ediv _ (by omega)]
    by_cases h : m = 1
    · subst h
      rw [if_pos rfl]
      omega
    · rw [if_neg h]
      omega
  have e2 : (((y : ℤ) * 12 + ((m : ℤ) - 1 + (-1))).fmod 12 + 1).toNat =
      (if m = 1 then 12 else m - 1) := by
    rw [Int.fmod_eq_emod _ (by omega)]
    by_cases h : m = 1
    · subst h
      rw [if_pos rfl]
      omega
    · rw [if_neg h]
      omega
  rw [e1, intToChars_natCast, e2]

/-- Claim C6: for every selected month key of the form YYYY-MM with a
four-digit year (1000 to 9999, the reading fixed by the companion
round-trip claim; keys 0000-MM to 0099-MM would instead hit the Date
constructor rule mapping year arguments 0 to 99 to 1900 to 1999) and
month between 01 and 12, navigate(+1) moves the cursor to the
immediately following calendar month and navigate(-1) to the
immediately preceding one, with year rollover at the boundaries. -/
theorem navigateMonth_adjacent (y m : ℕ) (hy1 : 1000 ≤ y) (hy2 : y ≤ 9999)
    (hm1 : 1 ≤ m) (hm2 : m ≤ 12) :
    navigateMonth (monthKeyString y m) 1 =
      monthKeyString (if m = 12 then y + 1 else y) (if m = 12 then 1 else m + 1) ∧
    navigateMonth (monthKeyString y m) (-1) =
      monthKeyString (if m = 1 then y - 1 else y) (if m = 1 then 12 else m - 1) :=
  ⟨navigateMonth_plus y m (by omega) hm1 hm2,
   navigateMonth_minus y m (by omega) hm1 hm2⟩

/-- Witness for claim C6: from 2024-12, navigate(+1) yields 2025-01;
from 2024-01, navigate(-1) yields 2023-12. -/
theorem navigateMonth_adjacent_witness :
    navigateMonth "2024-12" 1 = "2025-01" ∧
    navigateMonth "2024-01" (-1) = "2023-12" := by
  constructor
  · have h := (navigateMonth_adjacent 2024 12 (by omega) (by omega)
      (by omega) (by omega)).1
    have e1 : monthKeyString 2024 12 = "2024-12" := by decide
    have e2 : monthKeyString (if 12 = 12 then 2024 + 1 else 2024)
        (if 12 = 12 then 1 else 12 + 1) = "2025-01" := by decide
    rw [← e1, h, e2]
  · have h := (navigateMonth_adjacent 2024 1 (by omega) (by omega)
      (by omega) (by omega)).2
    have e1 : monthKeyString 2024 1 = "2024-01" := by decide
    have e2 : monthKeyString (if 1 = 1 then 2024 - 1 else 2024)
        (if 1 = 1 then 12 else 1 - 1) = "2023-12" := by decide
    rw [← e1, h, e2]

/-- Claim C10: for every month key with a four-digit year between 1000
and 9999 and month between 01 and 12, navigating one month forward then
one month backward returns to the original key, and likewise backward
then forward: the two navigation steps are mutually inverse on these
keys. -/
theorem navigateMonth_roundtrip (y m : ℕ) (hy1 : 1000 ≤ y) (hy2 : y ≤ 9999)
    (hm1 : 1 ≤ m) (hm2 : m ≤ 12) :
    navigateMonth (navigateMonth (monthKeyString y m) 1) (-1) = monthKeyString y m ∧
    navigateMonth (navigateMonth (monthKeyString y m) (-1)) 1 = monthKeyString y m := by
  constructor
  · rw [navigateMonth_plus y m (by omega) hm1 hm2]
    by_cases h : m = 12
    · subst h
      rw [if_pos rfl, if_pos rfl,
        navigateMonth_minus (y + 1) 1 (by omega) (by omega) (by omega),
        if_pos rfl, if_pos rfl, show y + 1 - 1 = y from by omega]
    · rw [if_neg h, if_neg h,
        navigateMonth_minus y (m + 1) (by omega) (by omega) (by omega),
        if_neg (by omega : ¬ m + 1 = 1), if_neg (by omega : ¬ m + 1 = 1),
        show m + 1 - 1 = m from by omega]
  · rw [navigateMonth_minus y m (by omega) hm1 hm2]
    by_cases h : m = 1
    · subst h
      rw [if_pos rfl, if_pos rfl,
        navigateMonth_plus (y - 1) 12 (by omega) (by omega) (by omega),
        if_pos rfl, if_pos rfl, show y - 1 + 1 = y from by omega]
    · rw [if_neg h, if_neg h,
        navigateMonth_plus y (m - 1) (by omega) (by omega) (by omega),
        if_neg (by omega : ¬ m - 1 = 12), if_neg (by omega : ¬ m - 1 = 12),
        show m - 1 + 1 = m from by omega]

/-- Witness for claim C10: the round trips at 2024-12 and 2024-01. -/
theorem navigateMonth_roundtrip_witness :
    navigateMonth (navigateMonth "2024-12" 1) (-1) = "2024-12" ∧
    navigateMonth (navigateMonth "2024-01" (-1)) 1 = "2024-01" := by
  have e1 : monthKeyString 2024 12 = "2024-12" := by decide
  have e2 : monthKeyString 2024 1 = "2024-01" := by decide
  constructor
  · have h := (navigateMonth_roundtrip 2024 12 (by omega) (by omega)
      (by omega) (by omega)).1
    rw [← e1, h]
  · have h := (navigateMonth_roundtrip 2024 1 (by omega) (by omega)
      (by omega) (by omega)).2
    rw [← e2, h]
